import Mathlib

/-!
A verification development for the `serde_resp` repository: a shallow
embedding in Lean 4 of `src/parser.rs` (a nom-based RESP wire parser) and the
spec-level serialize/deserialize mapping, together with theorems settling the
spec claims.

Bytes are modelled as `List UInt8`.  The nom result type
`IResult<&[u8], O, Error<&[u8]>>` is modelled by `PResult`: success carries
the unconsumed remainder and the value; `Err::Incomplete` is the
`incomplete` outcome (the needed-size hint is not modelled, no claim
mentions it); `Err::Error` is `fail`; `Err::Failure` is `failure` (the
parser never constructs one, no cut combinator is used); a Rust panic is
`panicked`.
-/

namespace SerdeResp

/-- ASCII/UTF-8 bytes of a Lean string literal, used to write inputs. -/
def b (s : String) : List UInt8 := s.data.map (fun c => UInt8.ofNat c.toNat)

/-- The nom `ErrorKind` values this parser can produce. -/
inductive ErrKind where
  | Tag
  | TakeUntil
  | CrLf
  | MapRes
  | Alt
deriving DecidableEq

/-- `Error<I>` from `src/parser.rs` with `I = &[u8]`.  `InvalidInteger` and
`InvalidStr` exist as variants (with `#[from]` conversions) but the parser's
`FromExternalError` impl discards the external error and builds `Error::Nom`,
so only `BulkTooLarge` and `Nom` are ever constructed while parsing. -/
inductive PError where
  | BulkTooLarge (msg : String)
  | InvalidInteger
  | InvalidStr
  | Nom (kind : ErrKind) (input : List UInt8)
deriving DecidableEq

/-- The outcome of running a parser function on a buffer. -/
inductive PResult (α : Type) where
  | ok (rem : List UInt8) (val : α)
  | incomplete
  | fail (e : PError)
  | failure (e : PError)
  | panicked (msg : String)

/-- Outcome classifier: the `Malformed` outcome (a nom `Err::Error` or
`Err::Failure`). -/
def PResult.isMalformed {α : Type} : PResult α → Bool
  | .fail _ => true
  | .failure _ => true
  | _ => false

/-- Outcome classifier: the `Incomplete` outcome. -/
def PResult.isIncomplete {α : Type} : PResult α → Bool
  | .incomplete => true
  | _ => false

/-- `Type<'a>` from `src/parser.rs`.  `Simple` borrows raw bytes, `Error`
holds a `&str` (modelled by its UTF-8 bytes, validated at construction),
`Bulk.len` is the `u32` field modelled as a `Nat` below `2^32`. -/
inductive Ty where
  | Simple (s : List UInt8)
  | Error (s : List UInt8)
  | Integer (i : Int)
  | Bulk (len : Nat) (data : List UInt8)
  | Array (elems : List Ty)
  | Null

/-- `const BULK_STRING_MAX: i64 = 4_096_000_000` from `src/parser.rs`
(the comment there says "The maximum size of a bulk string is 512MB", but
512 MiB is 536,870,912 bytes; the constant is the literal in the code). -/
def BULK_STRING_MAX : Int := 4096000000

/-- `const NULL_SENTINEL: i64 = -1` from `src/parser.rs`. -/
def NULL_SENTINEL : Int := -1

/-- Index of the first occurrence of the two-byte sequence CRLF
(`13, 10`), if any: the search performed by `take_until("\r\n")`. -/
def findCRLF : List UInt8 → Option Nat
  | [] => none
  | [_] => none
  | x :: y :: rest =>
    if x = 13 ∧ y = 10 then some 0
    else (findCRLF (y :: rest)).map (· + 1)

/-- `nom::character::streaming::crlf`: consume a leading CRLF; a proper
prefix of CRLF is `Incomplete`, anything else is an error of kind `CrLf`. -/
def crlfP (input : List UInt8) : PResult (List UInt8) :=
  match input with
  | 13 :: 10 :: rest => .ok rest [13, 10]
  | 13 :: [] => .incomplete
  | [] => .incomplete
  | _ => .fail (.Nom .CrLf input)

/-- `until_crlf` from `src/parser.rs`:
`tuple((take_until("\r\n"), crlf))`, returning the line before the first
CRLF.  Streaming `take_until` is `Incomplete` when no CRLF is present. -/
def until_crlf (input : List UInt8) : PResult (List UInt8) :=
  match findCRLF input with
  | none => .incomplete
  | some i =>
    match crlfP (List.drop i input) with
    | .ok rem _ => .ok rem (List.take i input)
    | .incomplete => .incomplete
    | .fail e => .fail e
    | .failure e => .failure e
    | .panicked m => .panicked m

/-- `nom::bytes::streaming::tag` for a one-byte tag: `Incomplete` on an
empty buffer, error of kind `Tag` on a mismatch. -/
def tagP (t : UInt8) (input : List UInt8) : PResult UInt8 :=
  match input with
  | [] => .incomplete
  | x :: rest => if x = t then .ok rest t else .fail (.Nom .Tag input)

/-- `prefixed_line` from `src/parser.rs`: `preceded(tag(prefix), until_crlf)`. -/
def prefixed_line (p : UInt8) (input : List UInt8) : PResult (List UInt8) :=
  match tagP p input with
  | .ok rem _ => until_crlf rem
  | .incomplete => .incomplete
  | .fail e => .fail e
  | .failure e => .failure e
  | .panicked m => .panicked m

/-- Rust's `?` operator on an `IResult`: on success continue with the
remainder and value, every other outcome propagates unchanged. -/
def pbind {α β : Type} (r : PResult α) (f : List UInt8 → α → PResult β) : PResult β :=
  match r with
  | .ok rem v => f rem v
  | .incomplete => .incomplete
  | .fail e => .fail e
  | .failure e => .failure e
  | .panicked m => .panicked m

/-- Is a byte a UTF-8 continuation byte (`0x80..=0xBF`)? -/
def contByte (x : UInt8) : Bool := 128 ≤ x ∧ x ≤ 191

/-- UTF-8 validity of a byte sequence (RFC 3629), as checked by
`str::from_utf8` inside `to_str`. -/
def validUtf8 : List UInt8 → Bool
  | [] => true
  | x :: rest =>
    if x ≤ 127 then validUtf8 rest
    else if 194 ≤ x ∧ x ≤ 223 then
      match rest with
      | c1 :: r => contByte c1 && validUtf8 r
      | [] => false
    else if x = 224 then
      match rest with
      | c1 :: c2 :: r => (160 ≤ c1 && c1 ≤ 191) && contByte c2 && validUtf8 r
      | _ => false
    else if (225 ≤ x ∧ x ≤ 236) ∨ x = 238 ∨ x = 239 then
      match rest with
      | c1 :: c2 :: r => contByte c1 && contByte c2 && validUtf8 r
      | _ => false
    else if x = 237 then
      match rest with
      | c1 :: c2 :: r => (128 ≤ c1 && c1 ≤ 159) && contByte c2 && validUtf8 r
      | _ => false
    else if x = 240 then
      match rest with
      | c1 :: c2 :: c3 :: r =>
        (144 ≤ c1 && c1 ≤ 191) && contByte c2 && contByte c3 && validUtf8 r
      | _ => false
    else if 241 ≤ x ∧ x ≤ 243 then
      match rest with
      | c1 :: c2 :: c3 :: r =>
        contByte c1 && contByte c2 && contByte c3 && validUtf8 r
      | _ => false
    else if x = 244 then
      match rest with
      | c1 :: c2 :: c3 :: r =>
        (128 ≤ c1 && c1 ≤ 143) && contByte c2 && contByte c3 && validUtf8 r
      | _ => false
    else false

/-- Value of an ASCII decimal digit byte, as used by `i64::from_str`. -/
def digitVal (x : UInt8) : Option Nat :=
  if 48 ≤ x ∧ x ≤ 57 then some (x.toNat - 48) else none

/-- Accumulate a run of decimal digit bytes into a natural number;
`none` if some byte is not a digit. -/
def digitsVal (s : List UInt8) : Option Nat :=
  s.foldl
    (fun acc x =>
      match acc, digitVal x with
      | some a, some d => some (a * 10 + d)
      | _, _ => none)
    (some 0)

/-- `str::parse::<i64>` (`i64::from_str`): an optional ASCII sign followed by
a nonempty run of ASCII decimal digits, failing when the value leaves the
`i64` range.  Rust checks overflow per accumulation step; since the
accumulated magnitude is monotone, that is equivalent to the final range
check modelled here. -/
def parseI64 (s : List UInt8) : Option Int :=
  let core : List UInt8 → Bool → Option Int := fun digits neg =>
    if digits.isEmpty then none
    else
      match digitsVal digits with
      | none => none
      | some n =>
        if neg then
          if n ≤ 9223372036854775808 then some (-(n : Int)) else none
        else
          if n ≤ 9223372036854775807 then some (n : Int) else none
  match s with
  | 43 :: rest => core rest false
  | 45 :: rest => core rest true
  | _ => core s false

/-- The composition `to_str` then `to_i64` applied to a line, as done by the
nested `map_res(map_res(prefixed_line(..), to_str), to_i64)` calls. -/
def lineToI64 (line : List UInt8) : Option Int :=
  if validUtf8 line then parseI64 line else none

/-- `simple_str` from `src/parser.rs`. -/
def simple_str (input : List UInt8) : PResult Ty :=
  pbind (prefixed_line 43 input) (fun rem line => .ok rem (.Simple line))

/-- `error` from `src/parser.rs`: a `-` line decoded as UTF-8.  `map_res`
reports a decode failure as `Error::Nom` with kind `MapRes` carrying the
original input (`from_external_error` discards the `Utf8Error`). -/
def error (input : List UInt8) : PResult Ty :=
  pbind (prefixed_line 45 input) (fun rem line =>
    if validUtf8 line then .ok rem (.Error line)
    else .fail (.Nom .MapRes input))

/-- `integer` from `src/parser.rs`: a `:` line decoded as UTF-8 and parsed
as `i64`.  Both `map_res` layers report failure as `Error::Nom` with kind
`MapRes` carrying the original input. -/
def integer (input : List UInt8) : PResult Ty :=
  pbind (prefixed_line 58 input) (fun rem line =>
    match lineToI64 line with
    | some i => .ok rem (.Integer i)
    | none => .fail (.Nom .MapRes input))

/-- `len as u32`: two's-complement truncation of an `i64` to `u32`. -/
def u32cast (i : Int) : Nat := (i % 4294967296).toNat

/-- `len as usize` on a 64-bit platform: truncation of an `i64` to `u64`. -/
def u64cast (i : Int) : Nat := (i % 18446744073709551616).toNat

/-- `bulk` from `src/parser.rs`: parse a `$` length line; `-1` is `Null`;
a length above `BULK_STRING_MAX` is `BulkTooLarge`; otherwise the data is
whatever `until_crlf` returns on the remainder — the declared length is
never used to take bytes. -/
def bulk (input : List UInt8) : PResult Ty :=
  pbind (prefixed_line 36 input) (fun rem line =>
    match lineToI64 line with
    | none => .fail (.Nom .MapRes input)
    | some len =>
      if len = NULL_SENTINEL then .ok rem .Null
      else if len > BULK_STRING_MAX then
        .fail (.BulkTooLarge
          ("length of " ++ toString len ++ " is greater than the max of "
            ++ toString BULK_STRING_MAX))
      else
        pbind (until_crlf rem) (fun rem2 data =>
          .ok rem2 (.Bulk (u32cast len) data)))

/-- One step of `alt`: on a nom `Err::Error` try the next branch (the
`Error::or`/`Error::append` impls both keep the later error), every other
outcome is returned as is. -/
def altStep (r : PResult Ty) (next : PResult Ty) : PResult Ty :=
  match r with
  | .fail _ => next
  | r => r

/-- The element loop of `array` (`for i in 0..len { parse(remaining)? }`),
parameterised by the element parser: parse `n` elements in order,
short-circuiting on the first element whose parse is not a success.
(The `println!` in the loop body is a side effect not modelled.) -/
def elemsWith (p : List UInt8 → PResult Ty) : Nat → List UInt8 → PResult (List Ty)
  | 0, input => .ok input []
  | n + 1, input =>
    pbind (p input) (fun rem v =>
      pbind (elemsWith p n rem) (fun rem2 vs => .ok rem2 (v :: vs)))

/-- `size_of::<Type>()` on a 64-bit platform: the largest payload
(`Bulk`/`Array`, 24 bytes) plus a discriminant rounded to the 8-byte
alignment. -/
def SIZE_OF_TYPE : Nat := 32

/-- `isize::MAX` on a 64-bit platform. -/
def ISIZE_MAX : Nat := 9223372036854775807

/-- `array` from `src/parser.rs`, parameterised by the element parser:
parse a `*` count line; `-1` is `Null`; otherwise
`Vec::with_capacity(len as usize)` runs first — it panics with "capacity
overflow" when the requested capacity in bytes exceeds `isize::MAX` (an
allocation failure below that bound is environment-dependent and not
modelled) — and then the element loop runs `len` times (zero times when
`len` is negative, as `0..len` is then empty). -/
def arrayWith (p : List UInt8 → PResult Ty) (input : List UInt8) : PResult Ty :=
  pbind (prefixed_line 42 input) (fun rem line =>
    match lineToI64 line with
    | none => .fail (.Nom .MapRes input)
    | some len =>
      if len = NULL_SENTINEL then .ok rem .Null
      else if u64cast len * SIZE_OF_TYPE > ISIZE_MAX then
        .panicked "capacity overflow"
      else
        pbind (elemsWith p (Int.toNat len) rem) (fun rem2 vs =>
          .ok rem2 (.Array vs)))

/-- `parse` from `src/parser.rs` with explicit recursion fuel:
`alt((simple_str, error, integer, bulk, array))`.  One unit of fuel is
spent per array-nesting level; each level consumes at least the four bytes
of its `*<count>` CRLF header, so fuel `input.length + 1` (used by `parse`
below) can never run out. -/
def parseF : Nat → List UInt8 → PResult Ty
  | 0, _ => .panicked "out of fuel"
  | fuel + 1, input =>
    altStep (simple_str input)
      (altStep (error input)
        (altStep (integer input)
          (altStep (bulk input)
            (arrayWith (parseF fuel) input))))

/-- `parse` from `src/parser.rs`. -/
def parse (input : List UInt8) : PResult Ty :=
  parseF (input.length + 1) input

/-- ASCII decimal digits of a natural number. -/
def decimal (n : Nat) : List UInt8 :=
  (Nat.toDigits 10 n).map (fun c => UInt8.ofNat c.toNat)

/-- Modelled from the spec: `src/lib.rs` declares `mod ser` but `ser.rs` is
absent from `src/`.  Spec section 4.3: a raw byte sequence (or the UTF-8
bytes of text) is serialized as a Bulk, wire form
`$<byte length>` CRLF `<bytes>` CRLF. -/
def serializeBytes (v : List UInt8) : List UInt8 :=
  36 :: decimal v.length ++ [13, 10] ++ v ++ [13, 10]

/-- Modelled from the spec: `src/lib.rs` declares `mod de` but `de.rs` is
absent from `src/`.  Spec sections 4.4 and 6: deserializing into the target
shape "bytes" parses one wire value from the buffer with the repository's
`parse` and exposes a SimpleString/Bulk/ErrorMessage payload as the bytes;
any other outcome is a failure. -/
def deserializeBytes (input : List UInt8) : Option (List UInt8) :=
  match parse input with
  | .ok _ (.Bulk _ data) => some data
  | .ok _ (.Simple s) => some s
  | .ok _ (.Error s) => some s
  | _ => none

/-- No CRLF sequence occurs in the byte list. -/
def noCRLF (s : List UInt8) : Bool := (findCRLF s).isNone

mutual

/-- The payload of every `Simple` and `Error` node, at any nesting depth,
is free of the CRLF line terminator. -/
def crlfFree : Ty → Bool
  | .Simple s => noCRLF s
  | .Error s => noCRLF s
  | .Integer _ => true
  | .Bulk _ _ => true
  | .Null => true
  | .Array xs => crlfFreeList xs

/-- `crlfFree` on every element of a list. -/
def crlfFreeList : List Ty → Bool
  | [] => true
  | x :: xs => crlfFree x && crlfFreeList xs

end


lemma findCRLF_append (line rest : List UInt8) (h : findCRLF line = none) :
    findCRLF (line ++ 13 :: 10 :: rest) = some line.length := by
  induction line with
  | nil => simp [findCRLF]
  | cons x l ih =>
    cases l with
    | nil => simp [findCRLF]
    | cons y t =>
      by_cases hxy : x = 13 ∧ y = 10
      · simp [findCRLF, hxy] at h
      · simp only [findCRLF, hxy, if_false] at h
        have h' : findCRLF (y :: t) = none := by
          cases hfy : findCRLF (y :: t) with
          | none => rfl
          | some j => rw [hfy] at h; simp at h
        have hih := ih h'
        rw [List.cons_append] at hih
        rw [List.cons_append, List.cons_append]
        simp only [findCRLF, hxy, if_false]
        rw [hih]
        simp

lemma findCRLF_take (s : List UInt8) : ∀ i, findCRLF s = some i →
    findCRLF (List.take i s) = none := by
  induction s with
  | nil => intro i h; simp [findCRLF] at h
  | cons x s ih =>
    cases s with
    | nil => intro i h; simp [findCRLF] at h
    | cons y t =>
      intro i h
      by_cases hxy : x = 13 ∧ y = 10
      · obtain ⟨rfl, rfl⟩ := hxy
        simp [findCRLF] at h
        subst h
        simp [findCRLF]
      · simp only [findCRLF, hxy, if_false] at h
        cases hfy : findCRLF (y :: t) with
        | none => rw [hfy] at h; simp at h
        | some j =>
          rw [hfy] at h; simp at h
          subst h
          cases j with
          | zero => simp [findCRLF]
          | succ k =>
            have hih := ih (k + 1) hfy
            rw [List.take_succ_cons] at hih
            rw [List.take_succ_cons, List.take_succ_cons]
            simp only [findCRLF, hxy, if_false]
            rw [hih]
            rfl

lemma until_crlf_eq_some {input : List UInt8} {i : Nat} (hf : findCRLF input = some i) :
    until_crlf input =
      match crlfP (List.drop i input) with
      | .ok rem _ => .ok rem (List.take i input)
      | .incomplete => .incomplete
      | .fail e => .fail e
      | .failure e => .failure e
      | .panicked m => .panicked m := by
  unfold until_crlf
  rw [hf]

lemma until_crlf_closed (line rest : List UInt8) (h : findCRLF line = none) :
    until_crlf (line ++ 13 :: 10 :: rest) = .ok rest line := by
  rw [until_crlf_eq_some (findCRLF_append line rest h)]
  simp only [List.drop_left, List.take_left]
  rfl

lemma until_crlf_ok {input rem line : List UInt8} (h : until_crlf input = .ok rem line) :
    findCRLF line = none := by
  cases hf : findCRLF input with
  | none =>
    unfold until_crlf at h
    rw [hf] at h
    nomatch h
  | some i =>
    rw [until_crlf_eq_some hf] at h
    cases hc : crlfP (List.drop i input) with
    | ok r l =>
      rw [hc] at h
      injection h with h1 h2
      subst h2
      exact findCRLF_take input i hf
    | incomplete => rw [hc] at h; nomatch h
    | fail e => rw [hc] at h; nomatch h
    | failure e => rw [hc] at h; nomatch h
    | panicked m => rw [hc] at h; nomatch h

lemma prefixed_line_cons (p : UInt8) (line rest : List UInt8) (h : findCRLF line = none) :
    prefixed_line p (p :: (line ++ 13 :: 10 :: rest)) = .ok rest line := by
  unfold prefixed_line
  have ht : tagP p (p :: (line ++ 13 :: 10 :: rest)) = .ok (line ++ 13 :: 10 :: rest) p := by
    simp [tagP]
  rw [ht]
  exact until_crlf_closed line rest h

lemma prefixed_line_ne (p x : UInt8) (t : List UInt8) (h : ¬x = p) :
    prefixed_line p (x :: t) = .fail (.Nom .Tag (x :: t)) := by
  simp [prefixed_line, tagP, h]

lemma prefixed_line_ok {p : UInt8} {input rem line : List UInt8}
    (h : prefixed_line p input = .ok rem line) : findCRLF line = none := by
  unfold prefixed_line at h
  cases ht : tagP p input with
  | ok r v => rw [ht] at h; exact until_crlf_ok h
  | incomplete => rw [ht] at h; nomatch h
  | fail e => rw [ht] at h; nomatch h
  | failure e => rw [ht] at h; nomatch h
  | panicked m => rw [ht] at h; nomatch h

lemma pbind_eq_ok {α β : Type} {r : PResult α} {rem : List UInt8} {v : α}
    (f : List UInt8 → α → PResult β) (h : r = .ok rem v) :
    pbind r f = f rem v := by
  rw [h]
  rfl

lemma pbind_eq_incomplete {α β : Type} {r : PResult α}
    (f : List UInt8 → α → PResult β) (h : r = .incomplete) :
    pbind r f = .incomplete := by
  rw [h]
  rfl

lemma pbind_eq_fail {α β : Type} {r : PResult α} {e : PError}
    (f : List UInt8 → α → PResult β) (h : r = .fail e) :
    pbind r f = .fail e := by
  rw [h]
  rfl

lemma pbind_ok_inv {α β : Type} {r : PResult α} {f : List UInt8 → α → PResult β}
    {rem2 : List UInt8} {v2 : β} (h : pbind r f = .ok rem2 v2) :
    ∃ rem v, r = .ok rem v ∧ f rem v = .ok rem2 v2 := by
  cases r with
  | ok rem v => exact ⟨rem, v, rfl, h⟩
  | incomplete => exact absurd h (by simp [pbind])
  | fail e => exact absurd h (by simp [pbind])
  | failure e => exact absurd h (by simp [pbind])
  | panicked m => exact absurd h (by simp [pbind])



lemma simple_str_ne (x : UInt8) (t : List UInt8) (h : ¬x = 43) :
    simple_str (x :: t) = .fail (.Nom .Tag (x :: t)) := by
  unfold simple_str
  rw [pbind_eq_fail _ (prefixed_line_ne 43 x t h)]

lemma error_ne (x : UInt8) (t : List UInt8) (h : ¬x = 45) :
    error (x :: t) = .fail (.Nom .Tag (x :: t)) := by
  unfold error
  rw [pbind_eq_fail _ (prefixed_line_ne 45 x t h)]

lemma integer_ne (x : UInt8) (t : List UInt8) (h : ¬x = 58) :
    integer (x :: t) = .fail (.Nom .Tag (x :: t)) := by
  unfold integer
  rw [pbind_eq_fail _ (prefixed_line_ne 58 x t h)]

lemma bulk_ne (x : UInt8) (t : List UInt8) (h : ¬x = 36) :
    bulk (x :: t) = .fail (.Nom .Tag (x :: t)) := by
  unfold bulk
  rw [pbind_eq_fail _ (prefixed_line_ne 36 x t h)]

lemma arrayWith_ne (p : List UInt8 → PResult Ty) (x : UInt8) (t : List UInt8)
    (h : ¬x = 42) : arrayWith p (x :: t) = .fail (.Nom .Tag (x :: t)) := by
  unfold arrayWith
  rw [pbind_eq_fail _ (prefixed_line_ne 42 x t h)]

lemma integer_badnum (line rest : List UInt8) (hline : findCRLF line = none)
    (hnum : lineToI64 line = none) :
    integer (58 :: (line ++ 13 :: 10 :: rest)) =
      .fail (.Nom .MapRes (58 :: (line ++ 13 :: 10 :: rest))) := by
  unfold integer
  rw [pbind_eq_ok _ (prefixed_line_cons 58 line rest hline)]
  rw [hnum]

lemma bulk_badnum (line rest : List UInt8) (hline : findCRLF line = none)
    (hnum : lineToI64 line = none) :
    bulk (36 :: (line ++ 13 :: 10 :: rest)) =
      .fail (.Nom .MapRes (36 :: (line ++ 13 :: 10 :: rest))) := by
  unfold bulk
  rw [pbind_eq_ok _ (prefixed_line_cons 36 line rest hline)]
  rw [hnum]

lemma arrayWith_badnum (p : List UInt8 → PResult Ty) (line rest : List UInt8)
    (hline : findCRLF line = none) (hnum : lineToI64 line = none) :
    arrayWith p (42 :: (line ++ 13 :: 10 :: rest)) =
      .fail (.Nom .MapRes (42 :: (line ++ 13 :: 10 :: rest))) := by
  unfold arrayWith
  rw [pbind_eq_ok _ (prefixed_line_cons 42 line rest hline)]
  rw [hnum]



lemma elemsWith_ok_length (p : List UInt8 → PResult Ty) :
    ∀ (n : Nat) (input rem : List UInt8) (vs : List Ty),
      elemsWith p n input = .ok rem vs → vs.length = n := by
  intro n
  induction n with
  | zero =>
    intro input rem vs h
    unfold elemsWith at h
    injection h with h1 h2
    subst h2
    rfl
  | succ n ih =>
    intro input rem vs h
    unfold elemsWith at h
    obtain ⟨r, v, hp, h2⟩ := pbind_ok_inv h
    obtain ⟨r2, vs2, he, h3⟩ := pbind_ok_inv h2
    injection h3 with h4 h5
    subst h5
    simp [ih _ _ _ he]

lemma simple_str_ok_inv {input rem : List UInt8} {v : Ty}
    (h : simple_str input = .ok rem v) :
    ∃ line, v = .Simple line ∧ findCRLF line = none := by
  unfold simple_str at h
  obtain ⟨r, line, hp, h2⟩ := pbind_ok_inv h
  injection h2 with h3 h4
  subst h4
  exact ⟨line, rfl, prefixed_line_ok hp⟩

lemma error_ok_inv {input rem : List UInt8} {v : Ty}
    (h : error input = .ok rem v) :
    ∃ line, v = .Error line ∧ findCRLF line = none := by
  unfold error at h
  obtain ⟨r, line, hp, h2⟩ := pbind_ok_inv h
  by_cases hv : validUtf8 line = true
  · rw [if_pos hv] at h2
    injection h2 with h3 h4
    subst h4
    exact ⟨line, rfl, prefixed_line_ok hp⟩
  · rw [if_neg hv] at h2
    nomatch h2

lemma integer_ok_inv {input rem : List UInt8} {v : Ty}
    (h : integer input = .ok rem v) : ∃ i, v = .Integer i := by
  unfold integer at h
  obtain ⟨r, line, hp, h2⟩ := pbind_ok_inv h
  cases hn : lineToI64 line with
  | some i =>
    rw [hn] at h2
    injection h2 with h3 h4
    subst h4
    exact ⟨i, rfl⟩
  | none =>
    rw [hn] at h2
    nomatch h2

lemma bulk_ok_inv {input rem : List UInt8} {v : Ty}
    (h : bulk input = .ok rem v) :
    v = .Null ∨ ∃ len data, v = .Bulk len data := by
  unfold bulk at h
  obtain ⟨r, line, hp, h2⟩ := pbind_ok_inv h
  split at h2
  · nomatch h2
  · split at h2
    · injection h2 with h3 h4
      subst h4
      exact Or.inl rfl
    · split at h2
      · nomatch h2
      · obtain ⟨r2, data, hu, h3⟩ := pbind_ok_inv h2
        injection h3 with h4 h5
        subst h5
        exact Or.inr ⟨_, data, rfl⟩

lemma arrayWith_ok_inv {p : List UInt8 → PResult Ty} {input rem : List UInt8} {v : Ty}
    (h : arrayWith p input = .ok rem v) :
    v = .Null ∨ ∃ n r vs, elemsWith p n r = .ok rem vs ∧ v = .Array vs := by
  unfold arrayWith at h
  obtain ⟨r, line, hp, h2⟩ := pbind_ok_inv h
  split at h2
  · nomatch h2
  · split at h2
    · injection h2 with h3 h4
      subst h4
      exact Or.inl rfl
    · split at h2
      · nomatch h2
      · obtain ⟨r2, vs, he, h3⟩ := pbind_ok_inv h2
        injection h3 with h4 h5
        subst h5
        subst h4
        exact Or.inr ⟨_, r, vs, he, rfl⟩

lemma altStep_ok_inv {r next : PResult Ty} {rem : List UInt8} {v : Ty}
    (h : altStep r next = .ok rem v) : r = .ok rem v ∨ next = .ok rem v := by
  cases r with
  | ok r' v' => exact Or.inl h
  | fail e => exact Or.inr h
  | incomplete => exact absurd h (by simp [altStep])
  | failure e => exact absurd h (by simp [altStep])
  | panicked m => exact absurd h (by simp [altStep])

lemma elemsWith_crlfFree (p : List UInt8 → PResult Ty)
    (hp : ∀ input rem v, p input = .ok rem v → crlfFree v = true) :
    ∀ (n : Nat) (input rem : List UInt8) (vs : List Ty),
      elemsWith p n input = .ok rem vs → crlfFreeList vs = true := by
  intro n
  induction n with
  | zero =>
    intro input rem vs h
    unfold elemsWith at h
    injection h with h1 h2
    subst h2
    simp [crlfFreeList]
  | succ n ih =>
    intro input rem vs h
    unfold elemsWith at h
    obtain ⟨r, v, hpi, h2⟩ := pbind_ok_inv h
    obtain ⟨r2, vs2, he, h3⟩ := pbind_ok_inv h2
    injection h3 with h4 h5
    subst h5
    simp [crlfFreeList, hp _ _ _ hpi, ih _ _ _ he]

lemma parseF_crlfFree : ∀ (fuel : Nat) (input rem : List UInt8) (v : Ty),
    parseF fuel input = .ok rem v → crlfFree v = true := by
  intro fuel
  induction fuel with
  | zero =>
    intro input rem v h
    exact absurd h (by simp [parseF])
  | succ fuel ih =>
    intro input rem v h
    simp only [parseF] at h
    rcases altStep_ok_inv h with h1 | h
    · obtain ⟨line, rfl, hl⟩ := simple_str_ok_inv h1
      simp [crlfFree, noCRLF, hl]
    rcases altStep_ok_inv h with h1 | h
    · obtain ⟨line, rfl, hl⟩ := error_ok_inv h1
      simp [crlfFree, noCRLF, hl]
    rcases altStep_ok_inv h with h1 | h
    · obtain ⟨i, rfl⟩ := integer_ok_inv h1
      simp [crlfFree]
    rcases altStep_ok_inv h with h1 | h
    · rcases bulk_ok_inv h1 with rfl | ⟨len, data, rfl⟩ <;> simp [crlfFree]
    · rcases arrayWith_ok_inv h with rfl | ⟨n, r, vs, he, rfl⟩
      · simp [crlfFree]
      · have hall := elemsWith_crlfFree (parseF fuel) ih n r rem vs he
        simp [crlfFree, hall]



lemma elemsWith_ok_then_incomplete (p : List UInt8 → PResult Ty) :
    ∀ (k m : Nat) (input rem : List UInt8) (vs : List Ty),
      elemsWith p k input = .ok rem vs → p rem = .incomplete →
      elemsWith p (k + m + 1) input = .incomplete := by
  intro k
  induction k with
  | zero =>
    intro m input rem vs h hp
    unfold elemsWith at h
    injection h with h1 h2
    subst h1
    rw [show 0 + m + 1 = m + 1 from by omega]
    unfold elemsWith
    exact pbind_eq_incomplete _ hp
  | succ k ih =>
    intro m input rem vs h hp
    unfold elemsWith at h
    obtain ⟨r, v, hpi, h2⟩ := pbind_ok_inv h
    obtain ⟨r2, vs2, he, h3⟩ := pbind_ok_inv h2
    injection h3 with h4 h5
    subst h4
    rw [show k + 1 + m + 1 = (k + m + 1) + 1 from by omega]
    unfold elemsWith
    rw [pbind_eq_ok _ hpi]
    exact pbind_eq_incomplete _ (ih m r _ vs2 he hp)

lemma elemsWith_ok_then_fail (p : List UInt8 → PResult Ty) :
    ∀ (k m : Nat) (input rem : List UInt8) (vs : List Ty) (e : PError),
      elemsWith p k input = .ok rem vs → p rem = .fail e →
      elemsWith p (k + m + 1) input = .fail e := by
  intro k
  induction k with
  | zero =>
    intro m input rem vs e h hp
    unfold elemsWith at h
    injection h with h1 h2
    subst h1
    rw [show 0 + m + 1 = m + 1 from by omega]
    unfold elemsWith
    exact pbind_eq_fail _ hp
  | succ k ih =>
    intro m input rem vs e h hp
    unfold elemsWith at h
    obtain ⟨r, v, hpi, h2⟩ := pbind_ok_inv h
    obtain ⟨r2, vs2, he, h3⟩ := pbind_ok_inv h2
    injection h3 with h4 h5
    subst h4
    rw [show k + 1 + m + 1 = (k + m + 1) + 1 from by omega]
    unfold elemsWith
    rw [pbind_eq_ok _ hpi]
    exact pbind_eq_fail _ (ih m r _ vs2 e he hp)

/-! ## Claim theorems -/

/-- Claim C1: the spec says any declared Bulk length strictly above
`BULK_MAX = 536,870,912` (512 MiB) is rejected with a `BulkTooLarge`
error, and in particular `536,870,913` is.  The code's cap constant is
`4_096_000_000`, so a declared length of `536,870,913` sails through the
limit check and the parse succeeds. -/
theorem bulk_cap_536870913_accepted :
    BULK_STRING_MAX = 4096000000 ∧
    parse (b "$536870913\r\n\r\n") = .ok [] (.Bulk 536870913 []) :=
  ⟨rfl, rfl⟩

/-- Claim C2: the spec says a Bulk parse consumes exactly the declared
`len` payload bytes, even when the payload contains CRLF.  The code reads
the payload with `until_crlf`, so it stops at the first CRLF: on
`$5\r\nab\r\ncd\r\n` it returns `Bulk {len: 5, data: "ab"}` with `cd\r\n`
left over, and the returned data length differs from the declared 5. -/
theorem bulk_data_stops_at_first_crlf :
    parse (b "$5\r\nab\r\ncd\r\n") = .ok (b "cd\r\n") (.Bulk 5 (b "ab")) ∧
    (b "ab").length ≠ 5 :=
  ⟨rfl, by decide⟩

/-- Claim C3: the spec says `deserialize(serialize(v)) == v` for every
representable `v`.  For the representable byte string `a\r\nb`, the
serialized wire form is `$4\r\na\r\nb\r\n`, but the repository's parser
truncates the Bulk payload at the embedded CRLF, so the round trip
returns `a`, not `a\r\nb`. -/
theorem round_trip_loses_crlf_payload :
    serializeBytes (b "a\r\nb") = b "$4\r\na\r\nb\r\n" ∧
    deserializeBytes (serializeBytes (b "a\r\nb")) = some (b "a") ∧
    some (b "a") ≠ some (b "a\r\nb") :=
  ⟨rfl, rfl, by decide⟩

/-- Claim C4: `parse` recognizes one canonical instance of each of the six
wire variants, with empty remainder in every case. -/
theorem parse_canonical_six_variants :
    parse (b "+OK\r\n") = .ok [] (.Simple (b "OK")) ∧
    parse (b ":-1\r\n") = .ok [] (.Integer (-1)) ∧
    parse (b "$5\r\nhello\r\n") = .ok [] (.Bulk 5 (b "hello")) ∧
    parse (b "$-1\r\n") = .ok [] .Null ∧
    parse (b "*2\r\n+OK\r\n:12\r\n") = .ok [] (.Array [.Simple (b "OK"), .Integer 12]) ∧
    parse (b "*-1\r\n") = .ok [] .Null :=
  ⟨rfl, rfl, rfl, rfl, rfl, rfl⟩

/-- Claim C5: `parse(b"+OK")` (missing CRLF) is the Incomplete outcome and
not Malformed, while `parse(b"\r\n")` (no valid prefix byte) is the
Malformed outcome and not Incomplete. -/
theorem parse_incomplete_vs_malformed_boundary :
    (parse (b "+OK")).isIncomplete = true ∧
    (parse (b "+OK")).isMalformed = false ∧
    (parse (b "\r\n")).isMalformed = true ∧
    (parse (b "\r\n")).isIncomplete = false :=
  ⟨rfl, rfl, rfl, rfl⟩

/-- Claim C6 counterexample: on `:1.1\r\n` the `integer` parser does fail,
but the error is not of the `InvalidInteger` kind: `map_res` routes the
`ParseIntError` through `from_external_error`, which discards it and
builds a generic `Error::Nom`. -/
theorem integer_fractional_error_not_InvalidInteger :
    (integer (b ":1.1\r\n")).isMalformed = true ∧
    integer (b ":1.1\r\n") ≠ .fail .InvalidInteger :=
  ⟨rfl, fun h => nomatch h⟩

/-- Claim C6 as amended: parsing the Integer line `:1.1\r\n` fails, and
the resulting error is the generic `Error::Nom` with nom kind `MapRes`
carrying the original input (the `InvalidInteger` variant is never
produced by the parser). -/
theorem integer_fractional_fails_with_nom_mapres :
    integer (b ":1.1\r\n") = .fail (.Nom .MapRes (b ":1.1\r\n")) :=
  rfl

/-- Claim C7: the array element loop parses elements in order and the
first failing element short-circuits the whole array parse with the same
classification: a successful element loop always returns exactly the
declared count of elements (never a partial array); if the first `k`
elements parse and the next element's parse is Incomplete (or an error),
a loop over any larger declared count is Incomplete (or that same error);
and concretely an array declaring 5 elements whose 3rd element is
truncated parses as Incomplete. -/
theorem array_elements_short_circuit :
    (∀ (p : List UInt8 → PResult Ty) (n : Nat) (input rem : List UInt8) (vs : List Ty),
        elemsWith p n input = .ok rem vs → vs.length = n) ∧
    (∀ (p : List UInt8 → PResult Ty) (k m : Nat) (input rem : List UInt8) (vs : List Ty),
        elemsWith p k input = .ok rem vs → p rem = .incomplete →
        elemsWith p (k + m + 1) input = .incomplete) ∧
    (∀ (p : List UInt8 → PResult Ty) (k m : Nat) (input rem : List UInt8) (vs : List Ty)
        (e : PError),
        elemsWith p k input = .ok rem vs → p rem = .fail e →
        elemsWith p (k + m + 1) input = .fail e) ∧
    parse (b "*5\r\n+a\r\n+b\r\n+c") = .incomplete :=
  ⟨elemsWith_ok_length, elemsWith_ok_then_incomplete, elemsWith_ok_then_fail, rfl⟩

/-- Claim C7 witness: the short-circuit theorem applied at concrete
inputs: in a loop over 5 declared elements whose first two parse and whose
3rd is truncated, the whole loop is Incomplete; and a successful loop over
2 elements returns exactly 2 values. -/
theorem array_elements_short_circuit_witness :
    elemsWith (parseF 9) 5 (b "+a\r\n+b\r\n+c") = .incomplete ∧
    [Ty.Simple (b "a"), Ty.Simple (b "b")].length = 2 :=
  ⟨array_elements_short_circuit.2.1 (parseF 9) 2 2 (b "+a\r\n+b\r\n+c") (b "+c")
      [Ty.Simple (b "a"), Ty.Simple (b "b")] rfl rfl,
   array_elements_short_circuit.1 (parseF 9) 2 (b "+a\r\n+b\r\n") []
      [Ty.Simple (b "a"), Ty.Simple (b "b")] rfl⟩

/-- Claim C8: for every CRLF-terminated numeric header line whose content
does not convert to an `i64` (for the Integer `:`, Bulk `$`, and Array `*`
headers alike), `parse` is the Malformed outcome — in particular not
Incomplete — whatever bytes follow the terminated line. -/
theorem terminated_bad_numeric_line_malformed (line rest : List UInt8)
    (hline : findCRLF line = none) (hnum : lineToI64 line = none) :
    (parse (58 :: (line ++ 13 :: 10 :: rest))).isMalformed = true ∧
    (parse (36 :: (line ++ 13 :: 10 :: rest))).isMalformed = true ∧
    (parse (42 :: (line ++ 13 :: 10 :: rest))).isMalformed = true := by
  refine ⟨?_, ?_, ?_⟩
  · simp only [parse, List.length_cons, parseF]
    rw [simple_str_ne 58 _ (by decide), error_ne 58 _ (by decide),
      integer_badnum line rest hline hnum, bulk_ne 58 _ (by decide),
      arrayWith_ne _ 58 _ (by decide)]
    rfl
  · simp only [parse, List.length_cons, parseF]
    rw [simple_str_ne 36 _ (by decide), error_ne 36 _ (by decide),
      integer_ne 36 _ (by decide), bulk_badnum line rest hline hnum,
      arrayWith_ne _ 36 _ (by decide)]
    rfl
  · simp only [parse, List.length_cons, parseF]
    rw [simple_str_ne 42 _ (by decide), error_ne 42 _ (by decide),
      integer_ne 42 _ (by decide), bulk_ne 42 _ (by decide),
      arrayWith_badnum _ line rest hline hnum]
    rfl

/-- Claim C8 witness: the malformed-numeric-line theorem applied to the
line `1.1` with nothing after the terminator. -/
theorem terminated_bad_numeric_line_malformed_witness :
    (parse (58 :: (b "1.1" ++ 13 :: 10 :: []))).isMalformed = true ∧
    (parse (36 :: (b "1.1" ++ 13 :: 10 :: []))).isMalformed = true ∧
    (parse (42 :: (b "1.1" ++ 13 :: 10 :: []))).isMalformed = true :=
  terminated_bad_numeric_line_malformed (b "1.1") [] rfl rfl

/-- Claim C9: whenever `parse` succeeds, every `Simple` and `Error`
payload in the returned value, at any nesting depth, contains no CRLF
sequence — `until_crlf` only ever returns the bytes before the first
CRLF. -/
theorem parsed_payloads_crlf_free (input rem : List UInt8) (v : Ty)
    (h : parse input = .ok rem v) : crlfFree v = true :=
  parseF_crlfFree (input.length + 1) input rem v h

/-- Claim C9 witness: the invariant applied to the parse of `+OK\r\n`. -/
theorem parsed_payloads_crlf_free_witness : crlfFree (Ty.Simple (b "OK")) = true :=
  parsed_payloads_crlf_free (b "+OK\r\n") [] (Ty.Simple (b "OK")) rfl

/-- Claim C10 counterexample: on `*-2\r\n` the parse does not return the
empty `Array` the claim describes. -/
theorem array_negative_count_no_empty_array :
    parse (b "*-2\r\n") ≠ .ok [] (.Array []) :=
  fun h => nomatch h

/-- Claim C10 as amended: a negative declared Array count other than `-1`
is indeed not reported as malformed — only `-1` is the null sentinel —
but it does not produce a successful empty-Array parse either:
`Vec::with_capacity(len as usize)` is called with the two's-complement
value of the negative count (at least `2^63`), which panics with
"capacity overflow" before the element loop can run. -/
theorem array_negative_count_capacity_overflow :
    (parse (b "*-2\r\n")).isMalformed = false ∧
    parse (b "*-2\r\n") = .panicked "capacity overflow" :=
  ⟨rfl, rfl⟩


end SerdeResp
